import Mathlib

/-
Verification development for the AliceO2 snapshot containing
  Detectors/TRD/calibration/include/TRDCalibration/TrackBasedCalib.h
  Generators/src/PrimaryGenerator.cxx

The TRD track-based calibration engine (TrackBasedCalib.cxx) is declared in
the header but its implementation file is not part of this snapshot, so the
accumulation engine is modelled from the specification document
(sections 3, 4, 6, 7, 8); every such definition carries a doc comment
starting with "Modelled from the spec:".  PrimaryGenerator.cxx is present
and is embedded directly from the source.

Numeric track parameters (C++ float / Double_t) are modelled as rationals;
the external trajectory-propagation engine, the Kalman update formula, the
geometric path-length and the momentum binning are kept abstract as
function parameters of the model, exactly as the spec treats them
(external collaborators with a documented contract).
-/

namespace Trd

/-- Modelled from the spec: material-correction policy selector with the
three options none / low-accuracy (lookup table) / full (geometry);
mirrors o2::base::Propagator::MatCorrType referenced by TrackBasedCalib.h
(Propagator.h is not part of this snapshot). -/
inductive MatCorrType where
  | USEMatCorrNONE
  | USEMatCorrLUT
  | USEMatCorrTGeo
deriving DecidableEq

/-- Modelled from the spec: a calibrated tracklet — an immutable detector
hit with a readout-channel identifier, a charge and a measured local
direction (slope). -/
structure TrackletData where
  channel : Nat
  charge : ℚ
  slope : ℚ
deriving DecidableEq

/-- Modelled from the spec: a track — a mutable working kinematic state
(par abstracts the local direction / snp of the track), a fixed per-layer
map of optionally attached calibrated tracklets (the array+sentinel
pattern of the source, rendered as Option), a per-layer cross-row flag and
the reference dE/dx value obtained from the seeding detector. -/
structure Track where
  par : ℚ
  tracklets : Nat → Option TrackletData
  crossRow : Nat → Bool
  refdEdx : ℚ

/-- Modelled from the spec: the external Propagation Capability and
geometry services used by the engine.  stepTo extrapolates the kinematic
state to a target layer and may fail (trajectory does not converge);
kalman is the measurement-update formula; pathLength gives the local path
length through a layer; crossRowCorr is the extra path factor for
cross-row tracks; momBin derives a momentum bin from the local state. -/
structure PropEnv where
  nLayers : Nat
  stepTo : ℚ → Nat → Option ℚ
  kalman : ℚ → TrackletData → ℚ
  pathLength : ℚ → ℚ
  crossRowCorr : ℚ
  momBin : ℚ → Nat

/-- Modelled from the spec: one entry of the Angular Residual Histogram,
keyed by detector layer, carrying the angular residual between predicted
and measured tracklet direction. -/
structure AngSample where
  layer : Nat
  residual : ℚ
deriving DecidableEq

/-- Modelled from the spec: one entry of the Gain Calibration Histogram,
keyed by readout channel and momentum bin, carrying the path-length
normalized (and gain-corrected) tracklet charge together with the
reference dE/dx of the track. -/
structure GainSample where
  channel : Nat
  momentumBin : Nat
  normCharge : ℚ
  refdEdx : ℚ
deriving DecidableEq

/-- State of the TrackBasedCalib engine; field names follow
TrackBasedCalib.h.  The two histograms are the only mutable outputs, the
track collections are the borrowed read-only inputs, and the two
correction tables are optional non-owned pointers (Option models the
possibly-null pointer, and a per-channel Option models a missing
entry in the gain table). -/
structure CalibState where
  mMaxSnp : ℚ
  mMaxStep : ℚ
  mMatCorr : MatCorrType
  mAngResHistos : List AngSample
  mGainCalibHistos : List GainSample
  mTracksInITSTPCTRD : List Track
  mTracksInTPCTRD : List Track
  mLocalGain : Option (Nat → Option ℚ)
  mNoiseCalib : Option (Nat → Bool)

/-- Modelled from the spec: default maximum sine of the track angle,
o2::base::Propagator::MAX_SIN_PHI (Propagator.h is not part of this
snapshot; the header initializes mMaxSnp with this constant). -/
def MAX_SIN_PHI : ℚ := mkRat 85 100

/-- Modelled from the spec: default maximum propagation step,
o2::base::Propagator::MAX_STEP (Propagator.h is not part of this
snapshot; the header initializes mMaxStep with this constant). -/
def MAX_STEP : ℚ := 2

/-- A freshly constructed engine: the in-class initializers of
TrackBasedCalib.h lines 88-90 and 105-106 (empty histograms, empty input
spans, null correction tables, default knobs). -/
def initCalibState : CalibState :=
  { mMaxSnp := MAX_SIN_PHI
    mMaxStep := MAX_STEP
    mMatCorr := MatCorrType.USEMatCorrNONE
    mAngResHistos := []
    mGainCalibHistos := []
    mTracksInITSTPCTRD := []
    mTracksInTPCTRD := []
    mLocalGain := none
    mNoiseCalib := none }

/-- Modelled from the spec (4.1, TrackBasedCalib.h line 82): extrapolate
the working track state to the target layer; failure when the propagation
does not converge or when the resulting snp exceeds the configured
maximum; when the update flag is set and a calibrated tracklet is attached
at that layer, apply the measurement update.  Returns none on failure. -/
def propagateAndUpdate (env : PropEnv) (st : CalibState) (trk : Track)
    (iLayer : Nat) (doUpdate : Bool) : Option Track :=
  match env.stepTo trk.par iLayer with
  | none => none
  | some p =>
    if st.mMaxSnp < |p| then
      none
    else if doUpdate then
      match trk.tracklets iLayer with
      | some tl => some { trk with par := env.kalman p tl }
      | none => some { trk with par := p }
    else
      some { trk with par := p }

/-- Modelled from the spec: the working state of a track after the given
sequence of propagate-and-update steps; none as soon as one step fails. -/
def runTo (env : PropEnv) (st : CalibState) (doUpdate : Bool) :
    Track → List Nat → Option Track
  | trk, [] => some trk
  | trk, l :: ls =>
    match propagateAndUpdate env st trk l doUpdate with
    | none => none
    | some trk' => runTo env st doUpdate trk' ls

/-- Modelled from the spec: the sequence of layer indices at which
propagateAndUpdate is actually invoked during a per-track pass (the pass
stops right after the first failing layer). -/
def passTrace (env : PropEnv) (st : CalibState) (doUpdate : Bool) :
    Track → List Nat → List Nat
  | _, [] => []
  | trk, l :: ls =>
    l :: match propagateAndUpdate env st trk l doUpdate with
         | none => []
         | some trk' => passTrace env st doUpdate trk' ls

/-- Modelled from the spec: the first layer of the pass at which
propagateAndUpdate fails, if any. -/
def firstFail (env : PropEnv) (st : CalibState) (doUpdate : Bool) :
    Track → List Nat → Option Nat
  | _, [] => none
  | trk, l :: ls =>
    match propagateAndUpdate env st trk l doUpdate with
    | none => some l
    | some trk' => firstFail env st doUpdate trk' ls

/-- Modelled from the spec (4.2): the angular-residual sample recorded at
a layer from the working track state after the propagate-and-update step:
one sample when a calibrated tracklet is attached at that layer, none
otherwise. -/
def angRecord (trk : Track) (iLayer : Nat) : List AngSample :=
  match trk.tracklets iLayer with
  | none => []
  | some tl => [{ layer := iLayer, residual := trk.par - tl.slope }]

/-- Modelled from the spec (4.2): per-track angular-residual pass — for
each layer in order attempt propagate-and-update with the update enabled;
on success record the sample for that layer and continue, on failure stop
(samples of earlier layers are kept, nothing is rolled back). -/
def angPass (env : PropEnv) (st : CalibState) :
    Track → List Nat → List AngSample
  | _, [] => []
  | trk, l :: ls =>
    match propagateAndUpdate env st trk l true with
    | none => []
    | some trk' => angRecord trk' l ++ angPass env st trk' ls

/-- Modelled from the spec (4.3, 6): whether a channel is flagged noisy;
a null Noise Map pointer means no channel is treated as noisy. -/
def isNoisy (st : CalibState) (channel : Nat) : Bool :=
  match st.mNoiseCalib with
  | none => false
  | some noisemap => noisemap channel

/-- Modelled from the spec (4.3, 7): gain correction of a raw charge; a
null Local Gain Factor Table, or a missing per-channel entry, means no
correction is applied. -/
def applyGain (st : CalibState) (channel : Nat) (q : ℚ) : ℚ :=
  match st.mLocalGain with
  | none => q
  | some gainTable =>
    match gainTable channel with
    | none => q
    | some g => q / g

/-- Modelled from the spec (4.3): the gain-calibration sample recorded at
a layer from the working track state: skip entirely when no tracklet is
attached or when the channel is flagged noisy; otherwise record the
gain-corrected charge normalized by the local path length (with the
cross-row path correction), keyed by channel and momentum bin. -/
def gainRecord (env : PropEnv) (st : CalibState) (trk : Track)
    (iLayer : Nat) : List GainSample :=
  match trk.tracklets iLayer with
  | none => []
  | some tl =>
    if isNoisy st tl.channel then
      []
    else
      [{ channel := tl.channel
         momentumBin := env.momBin trk.par
         normCharge := applyGain st tl.channel tl.charge /
           (env.pathLength trk.par *
             (if trk.crossRow iLayer then env.crossRowCorr else 1))
         refdEdx := trk.refdEdx }]

/-- Modelled from the spec (4.3): per-track gain pass — trajectory-only
extrapolation (no measurement update) layer by layer, recording a gain
sample where possible; a propagation failure stops the pass, earlier
samples are kept. -/
def gainPass (env : PropEnv) (st : CalibState) :
    Track → List Nat → List GainSample
  | _, [] => []
  | trk, l :: ls =>
    match propagateAndUpdate env st trk l false with
    | none => []
    | some trk' => gainRecord env st trk' l ++ gainPass env st trk' ls

/-- Modelled from the spec (4.3, TrackBasedCalib.h line 79): collect the
tracklet charges of every track of one source flavor.  The flag selects
how the reference dE/dx was obtained (TPC-TRD vs ITS-TPC-TRD seeding);
both flavors converge on the same accumulation logic, the reference value
travelling with the track. -/
def filldEdx (env : PropEnv) (st : CalibState) (tracks : List Track)
    (isTPCTRD : Bool) : List GainSample :=
  tracks.flatMap (fun trk => gainPass env st trk (List.range env.nLayers))

/-- Modelled from the spec (4.2, TrackBasedCalib.h line 69): main entry
point of the Angular Residual Accumulator — runs the angular pass over the
borrowed track collections and appends the samples to the Angular Residual
Histogram; the inputs are never mutated. -/
def calculateAngResHistos (env : PropEnv) (st : CalibState) : CalibState :=
  { st with mAngResHistos := st.mAngResHistos ++
      ((st.mTracksInTPCTRD ++ st.mTracksInITSTPCTRD).flatMap
        (fun trk => angPass env st trk (List.range env.nLayers))) }

/-- Modelled from the spec (4.3, TrackBasedCalib.h line 76): main entry
point of the Gain Calibration Accumulator — one filldEdx invocation per
track-source flavor, appending to the Gain Calibration Histogram. -/
def calculateGainCalibObjs (env : PropEnv) (st : CalibState) : CalibState :=
  { st with mGainCalibHistos := st.mGainCalibHistos ++
      filldEdx env st st.mTracksInTPCTRD true ++
      filldEdx env st st.mTracksInITSTPCTRD false }

/-- Modelled from the spec (6, TrackBasedCalib.h line 66): reset clears
both output histograms to their initial empty state, all or nothing. -/
def reset (st : CalibState) : CalibState :=
  { st with mAngResHistos := [], mGainCalibHistos := [] }

/-- One full processing cycle: reset, then both accumulators over the
bound Input Bundle. -/
def cycleRun (env : PropEnv) (st : CalibState) : CalibState :=
  calculateGainCalibObjs env (calculateAngResHistos env (reset st))

/-- Modelled from the spec: whether a track has at least one attached TRD
tracklet among the detector layers. -/
def hasTracklets (env : PropEnv) (trk : Track) : Bool :=
  (List.range env.nLayers).any (fun l => (trk.tracklets l).isSome)

/-- Modelled from the spec (4.4): a TRD-only re-fit of one track succeeds
when the track has tracklets to fit at all and the layer-ordered
propagate-and-update pass (updates enabled at every layer) runs through
all layers with no propagation failure. -/
def trdOnlyFitOk (env : PropEnv) (st : CalibState) (trk : Track) : Bool :=
  hasTracklets env trk &&
    (runTo env st true trk (List.range env.nLayers)).isSome

/-- Modelled from the spec (4.4, TrackBasedCalib.h line 72): re-fit each
candidate track using only its attached TRD tracklets and return the
count of tracks successfully re-fit across all layers; a failed track is
not counted and its partial refit state is discarded (only the count is
returned, nothing else is retained). -/
def doTrdOnlyTrackFits (env : PropEnv) (st : CalibState)
    (tracks : List Track) : Nat :=
  (tracks.filter (fun t => trdOnlyFitOk env st t)).length

/- Concrete fixtures used by the witness theorems. -/

/-- A propagation environment over 3 layers in which every step succeeds
and the update leaves the state unchanged. -/
def wPropOk : PropEnv :=
  { nLayers := 3
    stepTo := fun p _ => some p
    kalman := fun p _ => p
    pathLength := fun _ => 1
    crossRowCorr := 2
    momBin := fun _ => 0 }

/-- A propagation environment that fails at layer 2 (and beyond). -/
def wPropFail2 : PropEnv :=
  { wPropOk with stepTo := fun p l => if l < 2 then some p else none }

/-- A sample tracklet on channel 5. -/
def wTl : TrackletData := { channel := 5, charge := 8, slope := 0 }

/-- A track with a tracklet attached at every layer, no cross-row. -/
def wTrk : Track :=
  { par := 0
    tracklets := fun _ => some wTl
    crossRow := fun _ => false
    refdEdx := 1 }

/-- A track with no tracklet attached at any layer. -/
def wTrkNoTl : Track := { wTrk with tracklets := fun _ => none }

/-- An engine state whose Noise Map flags channel 5 as noisy. -/
def wStNoisy : CalibState :=
  { initCalibState with mNoiseCalib := some (fun c => c == 5) }

/-- Ten candidate tracks of which exactly three have no tracklets. -/
def wTracks10 : List Track :=
  List.replicate 7 wTrk ++ List.replicate 3 wTrkNoTl

/-- The engine state with both correction-table pointers null (their
defaults). -/
def noTables (st : CalibState) : CalibState :=
  { st with mNoiseCalib := none, mLocalGain := none }

/-- The engine state carrying trivial correction tables: a Noise Map
flagging no channel and a Local Gain Factor Table with no stored entry. -/
def trivialTables (st : CalibState) : CalibState :=
  { st with mNoiseCalib := some (fun _ => false), mLocalGain := some (fun _ => (none : Option ℚ)) }

end Trd

namespace Gen

/-- Embedding-relevant state of o2::eventgen::PrimaryGenerator:
mEmbedActive models mEmbedTree being non-null, mEmbedIndex the current
background-event index, mEmbedEntries the number of entries of the
embedding tree (nonnegative counters in the source, starting at 0). -/
structure PrimaryGenState where
  mEmbedActive : Bool
  mEmbedIndex : Nat
  mEmbedEntries : Nat
deriving DecidableEq

/-- PrimaryGenerator::GenerateEvent (PrimaryGenerator.cxx lines 79-127),
embedding-relevant behavior: without an embedding tree the base generation
result is returned and the embedding index is untouched; with embedding,
a base-generation failure returns kFALSE leaving the index unchanged, and
on success the index is incremented and reduced modulo mEmbedEntries.
The base-class generation outcome is the external parameter baseOk. -/
def GenerateEvent (baseOk : Bool) (st : PrimaryGenState) :
    Bool × PrimaryGenState :=
  if st.mEmbedActive = false then
    (baseOk, st)
  else if baseOk = false then
    (false, st)
  else
    (true, { st with mEmbedIndex := (st.mEmbedIndex + 1) % st.mEmbedEntries })

/-- PrimaryGenerator::embedInto (PrimaryGenerator.cxx lines 313-350): the
external outcomes (a file already open, the file opening, the "o2sim"
tree lookup) are parameters; a non-positive entry count is rejected, and
on success the tree entry count is recorded and embedding becomes
active. -/
def embedInto (alreadyOpen fileOk treeOk : Bool) (entries : Int)
    (st : PrimaryGenState) : Bool × PrimaryGenState :=
  if alreadyOpen then
    (false, st)
  else if fileOk = false then
    (false, st)
  else if treeOk = false then
    (false, st)
  else if entries ≤ 0 then
    (false, st)
  else
    (true, { st with mEmbedActive := true, mEmbedEntries := entries.toNat })

/-- A generator state sitting at the last background entry (index 4 of
5 entries), embedding active. -/
def wGenSt : PrimaryGenState :=
  { mEmbedActive := true, mEmbedIndex := 4, mEmbedEntries := 5 }

/-- The generator state after one successful embedded generation from
wGenSt: the index wraps back to entry 0. -/
def wGenStAfter : PrimaryGenState :=
  { mEmbedActive := true, mEmbedIndex := 0, mEmbedEntries := 5 }

/-- The TMCProcess values AddTrack distinguishes: kPPrimary versus any
other production process. -/
inductive TMCProc where
  | kPPrimary
  | kPOther
deriving DecidableEq

/-- Environment of PrimaryGenerator::AddTrack: the current event
interaction vertex fVertex, the index offset for pre-existing tracks, the
global tracking switch, and the external collaborators — the PDG database
mass lookup, the mcgenstatus encoding check, the random K0 draw
(gRandom->Uniform() < 0.5) and the square root used for the energy
computation. -/
structure AddTrackEnv where
  fVertexX : ℚ
  fVertexY : ℚ
  fVertexZ : ℚ
  fMCIndexOffset : Int
  fdoTracking : Bool
  pdgMass : Int → Option ℚ
  isEncodedStatus : Int → Bool
  k0RandBelowHalf : Bool
  stackIsO2 : Bool
  esqrt : ℚ → ℚ

/-- The argument record of o2::data::Stack::PushTrack as assembled by
AddTrack (PrimaryGenerator.cxx lines 203-211). -/
structure PushedTrack where
  toBeDone : Int
  mother1 : Int
  pdg : Int
  px : ℚ
  py : ℚ
  pz : ℚ
  e : ℚ
  vx : ℚ
  vy : ℚ
  vz : ℚ
  tof : ℚ
  polx : ℚ
  poly : ℚ
  polz : ℚ
  proc : TMCProc
  ntr : Int
  weight : ℚ
  status : Int
  mother2 : Int
  daughter1 : Int
  daughter2 : Int
deriving DecidableEq

/-- PrimaryGenerator::AddTrack (PrimaryGenerator.cxx lines 131-214): the
status-encoding fatal check, the event-vertex shift of the supplied
coordinates, the PDG-existence downgrade of wanttracking, the index
offsets for mothers and daughters, the K0 conversion, the negative-energy
recomputation and the final PushTrack; none is returned on the two fatal
paths (bad status encoding for a primary, stack not an o2 stack). -/
def AddTrack (env : AddTrackEnv) (pdgid : Int) (px py pz vx vy vz : ℚ)
    (mother1 mother2 daughter1 daughter2 : Int) (wanttracking : Bool)
    (e tof weight : ℚ) (proc : TMCProc) (generatorStatus : Int) :
    Option PushedTrack :=
  if env.isEncodedStatus generatorStatus = false ∧ proc = TMCProc.kPPrimary then
    none
  else
    let vx' := vx + env.fVertexX
    let vy' := vy + env.fVertexY
    let vz' := vz + env.fVertexZ
    let wt := wanttracking && (env.pdgMass pdgid).isSome
    let doTracking : Int := if env.fdoTracking && wt then 1 else 0
    let m1 := if mother1 ≠ -1 then mother1 + env.fMCIndexOffset else mother1
    let m2 := if mother2 ≠ -1 then mother2 + env.fMCIndexOffset else mother2
    let d1 := if daughter1 ≠ -1 then daughter1 + env.fMCIndexOffset else daughter1
    let d2 := if daughter2 ≠ -1 then daughter2 + env.fMCIndexOffset else daughter2
    let pdg2 := if pdgid.natAbs = 311 ∧ doTracking = 1 then
        (if env.k0RandBelowHalf then (310 : Int) else 130)
      else pdgid
    let mass := (env.pdgMass pdgid).getD 0
    let e' := if e < 0 then
        env.esqrt (mass * mass + px * px + py * py + pz * pz)
      else e
    if env.stackIsO2 = false then
      none
    else
      some { toBeDone := doTracking
             mother1 := m1
             pdg := pdg2
             px := px, py := py, pz := pz
             e := e'
             vx := vx', vy := vy', vz := vz'
             tof := tof
             polx := 0, poly := 0, polz := 0
             proc := proc
             ntr := 0
             weight := weight
             status := generatorStatus
             mother2 := m2
             daughter1 := d1
             daughter2 := d2 }

/-- A concrete AddTrack environment with event vertex (1, 2, 3). -/
def wAddEnv : AddTrackEnv :=
  { fVertexX := 1
    fVertexY := 2
    fVertexZ := 3
    fMCIndexOffset := 0
    fdoTracking := true
    pdgMass := fun _ => some 1
    isEncodedStatus := fun _ => true
    k0RandBelowHalf := true
    stackIsO2 := true
    esqrt := fun _ => 0 }

/-- The PushTrack record produced by AddTrack for a pion at relative
vertex (10, 20, 30) in the wAddEnv environment. -/
def wPushed : PushedTrack :=
  { toBeDone := 1
    mother1 := -1
    pdg := 211
    px := 1, py := 1, pz := 1
    e := 5
    vx := 10 + 1, vy := 20 + 2, vz := 30 + 3
    tof := 0
    polx := 0, poly := 0, polz := 0
    proc := TMCProc.kPPrimary
    ntr := 0
    weight := 1
    status := 7
    mother2 := -1
    daughter1 := -1
    daughter2 := -1 }

end Gen

namespace Trd

/-- Every sample produced by the angular pass carries a layer index drawn
from the processed layer list. -/
theorem angPass_layer_mem (env : PropEnv) (st : CalibState) :
    ∀ (ls : List Nat) (trk : Track) (s : AngSample),
      s ∈ angPass env st trk ls → s.layer ∈ ls := by
  intro ls
  induction ls with
  | nil =>
    intro trk s hs
    simp [angPass] at hs
  | cons l ls ih =>
    intro trk s hs
    cases hp : propagateAndUpdate env st trk l true with
    | none =>
      simp [angPass, hp] at hs
    | some trk' =>
      simp only [angPass, hp] at hs
      rcases List.mem_append.mp hs with h1 | h2
      · unfold angRecord at h1
        cases htl : trk'.tracklets l with
        | none =>
          rw [htl] at h1
          simp at h1
        | some tl =>
          rw [htl] at h1
          simp only [List.mem_singleton] at h1
          subst h1
          exact List.mem_cons_self l ls
      · exact List.mem_cons_of_mem _ (ih trk' s h2)

/-- Location of the first propagation failure inside a contiguous layer
window, together with the truncation behavior of the angular pass and of
the invocation trace. -/
theorem firstFail_range'_spec (env : PropEnv) (st : CalibState) (k : Nat) :
    ∀ (m a : Nat) (trk : Track),
      firstFail env st true trk (List.range' a m) = some k →
      a ≤ k ∧ k < a + m ∧
      angPass env st trk (List.range' a m) =
        angPass env st trk (List.range' a (k - a)) ∧
      passTrace env st true trk (List.range' a m) =
        List.range' a (k - a + 1) := by
  intro m
  induction m with
  | zero =>
    intro a trk h
    simp [firstFail] at h
  | succ m ih =>
    intro a trk h
    rw [List.range'_succ a m 1] at h
    cases hp : propagateAndUpdate env st trk a true with
    | none =>
      simp only [firstFail, hp, Option.some.injEq] at h
      subst h
      refine ⟨Nat.le_refl a, by omega, ?_, ?_⟩
      · rw [List.range'_succ a m 1, Nat.sub_self]
        simp [angPass, hp]
      · rw [List.range'_succ a m 1, Nat.sub_self]
        simp [passTrace, hp, List.range'_one]
    | some trk' =>
      simp only [firstFail, hp] at h
      obtain ⟨h1, h2, h3, h4⟩ := ih (a + 1) trk' h
      have hk : k - a = (k - (a + 1)) + 1 := by omega
      refine ⟨by omega, by omega, ?_, ?_⟩
      · rw [List.range'_succ a m 1, hk, List.range'_succ a (k - (a + 1)) 1]
        simp only [angPass, hp]
        rw [h3]
      · rw [List.range'_succ a m 1, hk, List.range'_succ a (k - (a + 1) + 1) 1]
        simp only [passTrace, hp]
        rw [h4]

/-- The invocation trace of a per-track pass is an initial segment of the
layer list handed to the pass. -/
theorem passTrace_initial (env : PropEnv) (st : CalibState) (u : Bool) :
    ∀ (ls : List Nat) (trk : Track), passTrace env st u trk ls <+: ls := by
  intro ls
  induction ls with
  | nil =>
    intro trk
    simp [passTrace]
  | cons l ls ih =>
    intro trk
    cases hp : propagateAndUpdate env st trk l u with
    | none =>
      simp only [passTrace, hp]
      exact ⟨ls, rfl⟩
    | some trk' =>
      simp only [passTrace, hp]
      obtain ⟨t, ht⟩ := ih trk'
      exact ⟨t, by rw [List.cons_append, ht]⟩

/-- A pass that never hits a propagation failure invokes the propagation
at every layer of the list. -/
theorem runTo_complete (env : PropEnv) (st : CalibState) (u : Bool) :
    ∀ (ls : List Nat) (trk : Track),
      (runTo env st u trk ls).isSome = true →
      passTrace env st u trk ls = ls := by
  intro ls
  induction ls with
  | nil =>
    intro trk _
    simp [passTrace]
  | cons l ls ih =>
    intro trk h
    cases hp : propagateAndUpdate env st trk l u with
    | none =>
      simp [runTo, hp] at h
    | some trk' =>
      simp only [runTo, hp] at h
      simp only [passTrace, hp]
      rw [ih trk' h]

/-- C1: if propagateAndUpdate fails at layer k of the angular-residual
pass of a track, no further layer of that track is processed in the pass
(the pass output equals the pass over the layers before k and every
recorded sample lies strictly before k — earlier samples are retained,
nothing is rolled back), the propagation is invoked exactly once per layer
up to and including k (no retry), and the engine's input track collections
are left untouched by the accumulator. -/
theorem c1_propagation_failure_aborts_track_pass (env : PropEnv)
    (st : CalibState) (trk : Track) (k : Nat)
    (hfail : firstFail env st true trk (List.range env.nLayers) = some k) :
    k < env.nLayers ∧
    angPass env st trk (List.range env.nLayers) =
      angPass env st trk (List.range k) ∧
    (∀ s ∈ angPass env st trk (List.range env.nLayers), s.layer < k) ∧
    passTrace env st true trk (List.range env.nLayers) = List.range (k + 1) ∧
    (calculateAngResHistos env st).mTracksInTPCTRD = st.mTracksInTPCTRD ∧
    (calculateAngResHistos env st).mTracksInITSTPCTRD = st.mTracksInITSTPCTRD := by
  rw [List.range_eq_range' env.nLayers] at hfail
  obtain ⟨h1, h2, h3, h4⟩ :=
    firstFail_range'_spec env st k env.nLayers 0 trk hfail
  rw [Nat.sub_zero] at h3 h4
  have hang : angPass env st trk (List.range env.nLayers) =
      angPass env st trk (List.range k) := by
    rw [List.range_eq_range' env.nLayers, h3, ← List.range_eq_range' k]
  refine ⟨by omega, hang, ?_, ?_, rfl, rfl⟩
  · intro s hs
    rw [hang] at hs
    exact List.mem_range.mp (angPass_layer_mem env st (List.range k) trk s hs)
  · rw [List.range_eq_range' env.nLayers, h4, ← List.range_eq_range' (k + 1)]

theorem c1_witness :
    firstFail wPropFail2 initCalibState true wTrk
        (List.range wPropFail2.nLayers) = some 2 ∧
    (2 < wPropFail2.nLayers ∧
      angPass wPropFail2 initCalibState wTrk (List.range wPropFail2.nLayers) =
        angPass wPropFail2 initCalibState wTrk (List.range 2) ∧
      (∀ s ∈ angPass wPropFail2 initCalibState wTrk
          (List.range wPropFail2.nLayers), s.layer < 2) ∧
      passTrace wPropFail2 initCalibState true wTrk
          (List.range wPropFail2.nLayers) = List.range (2 + 1) ∧
      (calculateAngResHistos wPropFail2 initCalibState).mTracksInTPCTRD =
        initCalibState.mTracksInTPCTRD ∧
      (calculateAngResHistos wPropFail2 initCalibState).mTracksInITSTPCTRD =
        initCalibState.mTracksInITSTPCTRD) :=
  ⟨by decide,
    c1_propagation_failure_aborts_track_pass wPropFail2 initCalibState wTrk 2
      (by decide)⟩

/-- C6: in every per-track pass (the angular pass, the two gain passes and
the TRD-only refit all share this driver), the sequence of layer indices
at which propagateAndUpdate is invoked is an initial segment of the
ordered layer range — strictly increasing, never revisiting a layer, never
moving backward — and a pass with no failure invokes every layer exactly
once (terminal states are exactly failed and completed). -/
theorem c6_strictly_forward_pass (env : PropEnv) (st : CalibState)
    (u : Bool) (trk : Track) :
    passTrace env st u trk (List.range env.nLayers) <+:
      List.range env.nLayers ∧
    List.Sorted (· < ·) (passTrace env st u trk (List.range env.nLayers)) ∧
    (passTrace env st u trk (List.range env.nLayers)).Nodup ∧
    (∃ m, m ≤ env.nLayers ∧
      passTrace env st u trk (List.range env.nLayers) = List.range m) ∧
    ((runTo env st u trk (List.range env.nLayers)).isSome = true →
      passTrace env st u trk (List.range env.nLayers) =
        List.range env.nLayers) := by
  have hpre := passTrace_initial env st u (List.range env.nLayers) trk
  have hsort : List.Sorted (· < ·)
      (passTrace env st u trk (List.range env.nLayers)) :=
    (List.sorted_lt_range env.nLayers).sublist hpre.sublist
  refine ⟨hpre, hsort, hsort.nodup, ?_,
    fun h => runTo_complete env st u (List.range env.nLayers) trk h⟩
  refine ⟨min (passTrace env st u trk (List.range env.nLayers)).length
      env.nLayers, Nat.min_le_right _ _, ?_⟩
  exact ( List.prefix_iff_eq_take.mp hpre).trans (List.take_range _ _)

theorem c6_witness :
    (runTo wPropOk initCalibState true wTrk
        (List.range wPropOk.nLayers)).isSome = true ∧
    passTrace wPropOk initCalibState true wTrk (List.range wPropOk.nLayers) =
      List.range wPropOk.nLayers :=
  ⟨by decide,
    (c6_strictly_forward_pass wPropOk initCalibState true wTrk).2.2.2.2
      (by decide)⟩

end Trd

namespace Trd

/-- Every sample produced by a gain pass sits on a channel that is not
flagged noisy. -/
theorem gainPass_not_noisy (env : PropEnv) (st : CalibState) :
    ∀ (ls : List Nat) (trk : Track) (s : GainSample),
      s ∈ gainPass env st trk ls → isNoisy st s.channel = false := by
  intro ls
  induction ls with
  | nil =>
    intro trk s hs
    simp [gainPass] at hs
  | cons l ls ih =>
    intro trk s hs
    cases hp : propagateAndUpdate env st trk l false with
    | none =>
      simp [gainPass, hp] at hs
    | some trk' =>
      simp only [gainPass, hp] at hs
      rcases List.mem_append.mp hs with h1 | h2
      · unfold gainRecord at h1
        cases htl : trk'.tracklets l with
        | none =>
          rw [htl] at h1
          simp at h1
        | some tl =>
          rw [htl] at h1
          cases hn : isNoisy st tl.channel with
          | true =>
            simp [hn] at h1
          | false =>
            simp only [hn, Bool.false_eq_true, if_false, List.mem_singleton] at h1
            subst h1
            exact hn
      · exact ih trk' s h2

/-- Filtering with a stronger predicate never yields more elements. -/
theorem length_filter_le_of_imp {α : Type} (p q : α → Bool) (l : List α)
    (h : ∀ a ∈ l, p a = true → q a = true) :
    (l.filter p).length ≤ (l.filter q).length := by
  induction l with
  | nil => simp
  | cons x xs ih =>
    simp only [List.filter]
    have hx := h x (by simp)
    have ih' := ih (fun a ha hp => h a (by simp [ha]) hp)
    cases hp : p x <;> cases hq : q x <;> simp_all <;> omega

/-- A filter and its negation split the length of a list. -/
theorem length_filter_split {α : Type} (l : List α) (p : α → Bool) :
    (l.filter p).length + (l.filter (fun a => !(p a))).length = l.length := by
  induction l with
  | nil => simp
  | cons x xs ih =>
    cases hp : p x <;> simp [List.filter, hp, ih] <;> omega

/-- C2: a channel flagged noisy in the Noise Map contributes zero samples
to the Gain Calibration Histogram — no sample produced by filldEdx sits on
a noisy channel, for any track content of either source flavor. -/
theorem c2_noisy_channel_contributes_nothing (env : PropEnv)
    (st : CalibState) (tracks : List Track) (flavor : Bool) (c : Nat)
    (hnoisy : isNoisy st c = true) :
    ∀ s ∈ filldEdx env st tracks flavor, s.channel ≠ c := by
  intro s hs hc
  unfold filldEdx at hs
  obtain ⟨trk, _, hsg⟩ := List.mem_flatMap.mp hs
  have hclean := gainPass_not_noisy env st (List.range env.nLayers) trk s hsg
  rw [hc, hnoisy] at hclean
  exact Bool.noConfusion hclean

theorem c2_witness :
    isNoisy wStNoisy 5 = true ∧
    ∀ s ∈ filldEdx wPropOk wStNoisy [wTrk] true, s.channel ≠ 5 :=
  ⟨by decide,
    c2_noisy_channel_contributes_nothing wPropOk wStNoisy [wTrk] true 5
      (by decide)⟩

/-- C3: doTrdOnlyTrackFits counts exactly the tracks whose TRD-only refit
runs through all layers successfully; a track that fails propagation at
any layer is not counted; in particular on 10 candidate tracks of which at
least 3 carry no TRD tracklet at all, the returned count is at most 7. -/
theorem c3_trd_only_fit_count (env : PropEnv) (st : CalibState)
    (tracks : List Track) (hlen : tracks.length = 10)
    (hno : 3 ≤ (tracks.filter (fun t => !(hasTracklets env t))).length) :
    doTrdOnlyTrackFits env st tracks ≤ 7 ∧
    doTrdOnlyTrackFits env st tracks =
      (tracks.filter (fun t => trdOnlyFitOk env st t)).length ∧
    (∀ t ∈ tracks, runTo env st true t (List.range env.nLayers) = none →
      trdOnlyFitOk env st t = false) := by
  refine ⟨?_, rfl, ?_⟩
  · have himp : ∀ t ∈ tracks, trdOnlyFitOk env st t = true →
        hasTracklets env t = true := by
      intro t _ h
      unfold trdOnlyFitOk at h
      simp only [Bool.and_eq_true] at h
      exact h.1
    have h1 : (tracks.filter (fun t => trdOnlyFitOk env st t)).length ≤
        (tracks.filter (fun t => hasTracklets env t)).length :=
      length_filter_le_of_imp _ _ tracks himp
    have h2 : (tracks.filter (fun t => hasTracklets env t)).length +
        (tracks.filter (fun t => !(hasTracklets env t))).length =
          tracks.length :=
      length_filter_split tracks (fun t => hasTracklets env t)
    unfold doTrdOnlyTrackFits
    omega
  · intro t _ hr
    unfold trdOnlyFitOk
    rw [hr]
    simp

theorem c3_witness :
    wTracks10.length = 10 ∧
    3 ≤ (wTracks10.filter (fun t => !(hasTracklets wPropOk t))).length ∧
    doTrdOnlyTrackFits wPropOk initCalibState wTracks10 ≤ 7 :=
  ⟨by decide, by decide,
    (c3_trd_only_fit_count wPropOk initCalibState wTracks10 (by decide)
      (by decide)).1⟩

/-- C4: one processing cycle — reset followed by the angular and the gain
accumulator over the same bound Input Bundle and correction tables — is
deterministic and reset restores the empty initial state, so running the
cycle twice yields identical contents of both histograms on both runs. -/
theorem c4_reset_cycle_deterministic (env : PropEnv) (st : CalibState) :
    (cycleRun env st).mAngResHistos =
      (cycleRun env (cycleRun env st)).mAngResHistos ∧
    (cycleRun env st).mGainCalibHistos =
      (cycleRun env (cycleRun env st)).mGainCalibHistos :=
  ⟨rfl, rfl⟩

end Trd

namespace Trd

/-- C5: for two tracks identical except for the cross-row flag at a layer,
with the same raw tracklet charge at that layer, the Gain Calibration
Accumulator records a strictly lower normalized charge for the cross-row
track — the path-length normalization is strictly decreasing in the
traversed path length — whenever the (gain-corrected) charge and the local
path length are positive and the cross-row path factor exceeds one. -/
theorem c5_cross_row_normalized_charge_lower (env : PropEnv)
    (st : CalibState) (trk : Track) (l : Nat) (tl : TrackletData)
    (htl : trk.tracklets l = some tl)
    (hcr : trk.crossRow l = false)
    (hnoisy : isNoisy st tl.channel = false)
    (hq : 0 < applyGain st tl.channel tl.charge)
    (hpl : 0 < env.pathLength trk.par)
    (hcorr : 1 < env.crossRowCorr) :
    ∃ s₁ s₂ : GainSample,
      gainRecord env st trk l = [s₁] ∧
      gainRecord env st
        { trk with crossRow := fun i => if i = l then true else trk.crossRow i }
        l = [s₂] ∧
      s₁.channel = tl.channel ∧ s₂.channel = tl.channel ∧
      s₂.normCharge < s₁.normCharge := by
  have h1 : gainRecord env st trk l =
      [{ channel := tl.channel
         momentumBin := env.momBin trk.par
         normCharge := applyGain st tl.channel tl.charge /
           env.pathLength trk.par
         refdEdx := trk.refdEdx }] := by
    simp [gainRecord, htl, hnoisy, hcr]
  have h2 : gainRecord env st
      { trk with crossRow := fun i => if i = l then true else trk.crossRow i }
      l =
      [{ channel := tl.channel
         momentumBin := env.momBin trk.par
         normCharge := applyGain st tl.channel tl.charge /
           (env.pathLength trk.par * env.crossRowCorr)
         refdEdx := trk.refdEdx }] := by
    simp [gainRecord, htl, hnoisy]
  refine ⟨_, _, h1, h2, rfl, rfl, ?_⟩
  have hlt : env.pathLength trk.par <
      env.pathLength trk.par * env.crossRowCorr := by
    have hm := (mul_lt_mul_left hpl).mpr hcorr
    rwa [mul_one] at hm
  exact div_lt_div_of_pos_left hq hpl hlt

theorem c5_witness :
    wTrk.tracklets 1 = some wTl ∧
    wTrk.crossRow 1 = false ∧
    isNoisy initCalibState wTl.channel = false ∧
    0 < applyGain initCalibState wTl.channel wTl.charge ∧
    0 < wPropOk.pathLength wTrk.par ∧
    1 < wPropOk.crossRowCorr ∧
    (∃ s₁ s₂ : GainSample,
      gainRecord wPropOk initCalibState wTrk 1 = [s₁] ∧
      gainRecord wPropOk initCalibState
        { wTrk with crossRow := fun i => if i = 1 then true else wTrk.crossRow i }
        1 = [s₂] ∧
      s₁.channel = wTl.channel ∧ s₂.channel = wTl.channel ∧
      s₂.normCharge < s₁.normCharge) :=
  ⟨rfl, rfl, rfl, by decide, by decide, by decide,
    c5_cross_row_normalized_charge_lower wPropOk initCalibState wTrk 1 wTl
      rfl rfl rfl (by decide) (by decide) (by decide)⟩

/-- A per-layer gain record depends on the engine state only through the
noise lookup and the gain lookup. -/
theorem gainRecord_tables_congr (env : PropEnv) (st₁ st₂ : CalibState)
    (hn : ∀ c, isNoisy st₁ c = isNoisy st₂ c)
    (hg : ∀ c q, applyGain st₁ c q = applyGain st₂ c q)
    (trk : Track) (l : Nat) :
    gainRecord env st₁ trk l = gainRecord env st₂ trk l := by
  cases htl : trk.tracklets l with
  | none =>
    simp [gainRecord, htl]
  | some tl =>
    simp only [gainRecord, htl]
    simp only [hn, hg]

/-- The gain pass consults the engine state only through the configured
snp limit, the noise lookup and the gain lookup: two states that agree on
those agree on every gain pass. -/
theorem gainPass_tables_congr (env : PropEnv) (st₁ st₂ : CalibState)
    (hsnp : st₁.mMaxSnp = st₂.mMaxSnp)
    (hn : ∀ c, isNoisy st₁ c = isNoisy st₂ c)
    (hg : ∀ c q, applyGain st₁ c q = applyGain st₂ c q) :
    ∀ (ls : List Nat) (trk : Track),
      gainPass env st₁ trk ls = gainPass env st₂ trk ls := by
  intro ls
  induction ls with
  | nil =>
    intro trk
    simp [gainPass]
  | cons l ls ih =>
    intro trk
    have hpu : propagateAndUpdate env st₁ trk l false =
        propagateAndUpdate env st₂ trk l false := by
      unfold propagateAndUpdate
      rw [hsnp]
    cases hp : propagateAndUpdate env st₂ trk l false with
    | none =>
      have hp1 : propagateAndUpdate env st₁ trk l false = none := hpu.trans hp
      simp [gainPass, hp, hp1]
    | some trk' =>
      have hp1 : propagateAndUpdate env st₁ trk l false = some trk' :=
        hpu.trans hp
      simp only [gainPass, hp, hp1]
      rw [gainRecord_tables_congr env st₁ st₂ hn hg trk' l, ih trk']

/-- C7: a null Noise Map means no channel is treated as noisy; a null
Local Gain Factor Table, or a missing per-channel entry, means the charge
is not divided by any gain factor; the gain accumulation with both tables
absent coincides with the accumulation under trivial tables (nothing
noisy, no stored factor), so processing continues with no correction and
no error. -/
theorem c7_missing_tables_no_correction (env : PropEnv) (st : CalibState)
    (tracks : List Track) (flavor : Bool) (c : Nat) (q : ℚ)
    (g : Nat → Option ℚ) (hg : g c = none) :
    isNoisy { st with mNoiseCalib := none } c = false ∧
    applyGain { st with mLocalGain := none } c q = q ∧
    applyGain { st with mLocalGain := some g } c q = q ∧
    filldEdx env (noTables st) tracks flavor =
      filldEdx env (trivialTables st) tracks flavor := by
  refine ⟨rfl, rfl, ?_, ?_⟩
  · simp [applyGain, hg]
  · unfold filldEdx
    have hfun : (fun trk => gainPass env (noTables st) trk
          (List.range env.nLayers)) =
        (fun trk => gainPass env (trivialTables st) trk
          (List.range env.nLayers)) :=
      funext fun trk =>
        gainPass_tables_congr env (noTables st) (trivialTables st) rfl
          (fun _ => rfl) (fun _ _ => rfl) (List.range env.nLayers) trk
    rw [hfun]

theorem c7_witness :
    ((fun _ => (none : Option ℚ)) 5 = none) ∧
    (isNoisy { initCalibState with mNoiseCalib := none } 5 = false ∧
      applyGain { initCalibState with mLocalGain := none } 5 8 = 8 ∧
      applyGain { initCalibState with
        mLocalGain := some (fun _ => (none : Option ℚ)) } 5 8 = 8 ∧
      filldEdx wPropOk (noTables initCalibState) [wTrk] true =
        filldEdx wPropOk (trivialTables initCalibState) [wTrk] true) :=
  ⟨rfl,
    c7_missing_tables_no_correction wPropOk initCalibState [wTrk] true 5 8
      (fun _ => (none : Option ℚ)) rfl⟩

/-- C8: the engine exposes the three numeric configuration knobs of
TrackBasedCalib.h lines 88-90 — maximum sine of the track angle, maximum
propagation step, material-correction policy — whose policy type has
exactly the three options none / low-accuracy / full, and a freshly
constructed engine defaults them to the propagation engine's operating
constants and to no material correction. -/
theorem c8_config_defaults :
    initCalibState.mMaxSnp = MAX_SIN_PHI ∧
    initCalibState.mMaxStep = MAX_STEP ∧
    initCalibState.mMatCorr = MatCorrType.USEMatCorrNONE ∧
    ∀ m : MatCorrType, m = MatCorrType.USEMatCorrNONE ∨
      m = MatCorrType.USEMatCorrLUT ∨ m = MatCorrType.USEMatCorrTGeo := by
  refine ⟨rfl, rfl, rfl, ?_⟩
  intro m
  cases m with
  | USEMatCorrNONE => exact Or.inl rfl
  | USEMatCorrLUT => exact Or.inr (Or.inl rfl)
  | USEMatCorrTGeo => exact Or.inr (Or.inr rfl)

end Trd

namespace Gen

/-- C9: with embedding active and a positive background entry count
(which embedInto guarantees on success), every successful GenerateEvent
invocation advances the embedding index by one modulo the entry count, so
the index stays within bounds and wraps back to entry 0 after the last
recorded background event. -/
theorem c9_embed_index_cyclic :
    (∀ (baseOk : Bool) (st st' : PrimaryGenState),
      st.mEmbedActive = true → 0 < st.mEmbedEntries →
      GenerateEvent baseOk st = (true, st') →
      st'.mEmbedIndex = (st.mEmbedIndex + 1) % st.mEmbedEntries ∧
      st'.mEmbedIndex < st.mEmbedEntries ∧
      st'.mEmbedEntries = st.mEmbedEntries ∧
      (st.mEmbedIndex + 1 = st.mEmbedEntries → st'.mEmbedIndex = 0)) ∧
    (∀ (alreadyOpen fileOk treeOk : Bool) (entries : Int)
        (st st' : PrimaryGenState),
      embedInto alreadyOpen fileOk treeOk entries st = (true, st') →
      0 < st'.mEmbedEntries) := by
  constructor
  · intro baseOk st st' hact hpos hgen
    cases baseOk with
    | false => simp [GenerateEvent, hact] at hgen
    | true =>
      simp only [GenerateEvent, hact, Bool.true_eq_false, if_false,
        Prod.mk.injEq, true_and] at hgen
      subst hgen
      refine ⟨rfl, Nat.mod_lt _ hpos, rfl, fun hw => ?_⟩
      show (st.mEmbedIndex + 1) % st.mEmbedEntries = 0
      rw [hw, Nat.mod_self]
  · intro alreadyOpen fileOk treeOk entries st st' h
    unfold embedInto at h
    split at h
    · simp at h
    · split at h
      · simp at h
      · split at h
        · simp at h
        · split at h
          · simp at h
          · rename_i hle
            rw [Prod.mk.injEq] at h
            obtain ⟨-, hst⟩ := h
            subst hst
            show 0 < entries.toNat
            omega

theorem c9_witness :
    wGenSt.mEmbedActive = true ∧ 0 < wGenSt.mEmbedEntries ∧
    GenerateEvent true wGenSt = (true, wGenStAfter) ∧
    wGenStAfter.mEmbedIndex = (wGenSt.mEmbedIndex + 1) % wGenSt.mEmbedEntries ∧
    wGenStAfter.mEmbedIndex < wGenSt.mEmbedEntries ∧
    (wGenSt.mEmbedIndex + 1 = wGenSt.mEmbedEntries →
      wGenStAfter.mEmbedIndex = 0) := by
  have h := c9_embed_index_cyclic.1 true wGenSt wGenStAfter rfl (by decide)
    (by decide)
  exact ⟨rfl, by decide, by decide, h.1, h.2.1, h.2.2.2⟩

/-- C10: whenever AddTrack pushes a particle onto the stack, the pushed
vertex coordinates are the caller-supplied coordinates shifted
componentwise by the current event interaction vertex fVertex — the
supplied coordinates are interpreted relative to the event vertex, never
as absolute positions. -/
theorem c10_vertex_relative (env : AddTrackEnv) (pdgid : Int)
    (px py pz vx vy vz : ℚ) (mother1 mother2 daughter1 daughter2 : Int)
    (wanttracking : Bool) (e tof weight : ℚ) (proc : TMCProc)
    (generatorStatus : Int) (pushed : PushedTrack)
    (h : AddTrack env pdgid px py pz vx vy vz mother1 mother2 daughter1
      daughter2 wanttracking e tof weight proc generatorStatus =
        some pushed) :
    pushed.vx = vx + env.fVertexX ∧
    pushed.vy = vy + env.fVertexY ∧
    pushed.vz = vz + env.fVertexZ := by
  simp only [AddTrack] at h
  split at h
  · simp at h
  · split at h
    · simp at h
    · rw [Option.some.injEq] at h
      subst h
      exact ⟨rfl, rfl, rfl⟩

theorem c10_witness :
    AddTrack wAddEnv 211 1 1 1 10 20 30 (-1) (-1) (-1) (-1) true 5 0 1
        TMCProc.kPPrimary 7 = some wPushed ∧
    (wPushed.vx = 10 + wAddEnv.fVertexX ∧
      wPushed.vy = 20 + wAddEnv.fVertexY ∧
      wPushed.vz = 30 + wAddEnv.fVertexZ) :=
  have h : AddTrack wAddEnv 211 1 1 1 10 20 30 (-1) (-1) (-1) (-1) true 5 0 1
      TMCProc.kPPrimary 7 = some wPushed := rfl
  ⟨h, c10_vertex_relative wAddEnv 211 1 1 1 10 20 30 (-1) (-1) (-1) (-1) true
    5 0 1 TMCProc.kPPrimary 7 wPushed h⟩

end Gen
